import Mathlib

/-!
Verification of the LinkedIn post generation workflow
(`src/main.py`, `src/nodes.py`, `src/state.py`).

Text is modelled as `List Char`.  Python's `str.strip()` / `str.lower()` /
`str.split(",")` / `int(...)` and the two regular expressions used by the
feed extractor are embedded as executable functions below.  Whitespace is
modelled as the ASCII whitespace characters recognised by Python's `strip`
(space, tab, newline, carriage return, vertical tab, form feed).
-/

/-- Whitespace test matching Python's `str.strip()` on ASCII input. -/
def isPySpace (c : Char) : Bool :=
  c = ' ' || c = '\t' || c = '\n' || c = '\r' || c = Char.ofNat 11 || c = Char.ofNat 12

/-- Python `str.strip()`: drop leading and trailing whitespace. -/
def pyStrip (s : List Char) : List Char :=
  ((s.dropWhile isPySpace).reverse.dropWhile isPySpace).reverse

/-- Python `str.lower()` on ASCII input. -/
def pyLower (s : List Char) : List Char :=
  s.map Char.toLower

/-- Python `str.split(",")`; `"".split(",")` gives `[""]`. -/
def splitComma : List Char → List (List Char)
  | [] => [[]]
  | c :: rest =>
    if c = ',' then [] :: splitComma rest
    else
      match splitComma rest with
      | t :: ts => (c :: t) :: ts
      | [] => [[c]]

/-- Value of a digit string. -/
def digitsVal (ds : List Char) : Nat :=
  ds.foldl (fun n d => n * 10 + (d.toNat - '0'.toNat)) 0

/-- Python `int(s)` on a string: strips whitespace, then an optional sign
followed by one or more decimal digits; `none` models `ValueError`.
(Numeric-literal underscores accepted by Python are not modelled.) -/
def parseInt? (s : List Char) : Option Int :=
  match pyStrip s with
  | [] => none
  | c :: ds =>
    if c = '+' then
      if ds ≠ [] ∧ ds.all Char.isDigit then some ((digitsVal ds : Nat) : Int) else none
    else if c = '-' then
      if ds ≠ [] ∧ ds.all Char.isDigit then some (-((digitsVal ds : Nat) : Int)) else none
    else if (c :: ds).all Char.isDigit then some ((digitsVal (c :: ds) : Nat) : Int)
    else none

/-- The list comprehension `[int(idx.strip()) for idx in resp.split(",")]`:
parses every token, `none` models the `ValueError` raised by any failure. -/
def parseAll : List (List Char) → Option (List Int)
  | [] => some []
  | t :: ts =>
    match parseInt? t, parseAll ts with
    | some i, some is => some (i :: is)
    | _, _ => none

/-- Boolean prefix test on character lists (mirrors `List.isPrefixOf`). -/
def isPre : List Char → List Char → Bool
  | [], _ => true
  | _ :: _, [] => false
  | a :: as, b :: bs => if a = b then isPre as bs else false

/-- Find the first occurrence of `pat` in `s`; returns the part before the
occurrence and the part after it.  This is the search semantics of a lazy
regular-expression scan. -/
def splitFirst (pat : List Char) : List Char → Option (List Char × List Char)
  | [] => if pat = [] then some ([], []) else none
  | c :: rest =>
    if isPre pat (c :: rest) then some ([], (c :: rest).drop pat.length)
    else
      match splitFirst pat rest with
      | some (p, r) => some (c :: p, r)
      | none => none

/-! ### Feed extractor (`fetch_ai_news_rss_node`)

The node applies `re.findall(r"(?s)<h3.*?>(?P<headline>.*?)</h3>(.*?)<hr />", body)`.
With lazy quantifiers and dotall, each match is found by four successive
first-occurrence searches: `<h3`, then `>`, then `</h3>`, then `<hr />`;
scanning resumes after the matched `<hr />`.  `findHeadlinesFuel` performs
exactly this scan (the fuel, initialised to the length of the input, only
ensures structural recursion and is always sufficient). -/

/-- Literal `<h3`. -/
def h3open : List Char := ['<', 'h', '3']

/-- Literal `>`. -/
def gtTok : List Char := ['>']

/-- Literal `</h3>`. -/
def h3close : List Char := ['<', '/', 'h', '3', '>']

/-- Literal `<hr />`. -/
def hrTok : List Char := ['<', 'h', 'r', ' ', '/', '>']

/-- One lazy scan step per unit of fuel; see `findHeadlines`. -/
def findHeadlinesFuel : Nat → List Char → List (List Char × List Char)
  | 0, _ => []
  | fuel + 1, s =>
    match splitFirst h3open s with
    | none => []
    | some (_, r1) =>
      match splitFirst gtTok r1 with
      | none => []
      | some (_, r2) =>
        match splitFirst h3close r2 with
        | none => []
        | some (h, r3) =>
          match splitFirst hrTok r3 with
          | none => []
          | some (c, r4) => (h, c) :: findHeadlinesFuel fuel r4

/-- All `(headline, content)` pairs matched by the headline regular
expression, in order. -/
def findHeadlines (s : List Char) : List (List Char × List Char) :=
  findHeadlinesFuel s.length s

/-- One scan step per unit of fuel; see `stripTags`. -/
def stripTagsFuel : Nat → List Char → List Char
  | 0, s => s
  | fuel + 1, s =>
    match s with
    | [] => []
    | c :: rest =>
      if c = '<' then
        let inner := rest.takeWhile (fun ch => ch ≠ '>')
        let after := rest.drop inner.length
        if inner ≠ [] ∧ after ≠ [] then stripTagsFuel fuel (after.drop 1)
        else c :: stripTagsFuel fuel rest
      else c :: stripTagsFuel fuel rest

/-- Python `re.sub(r"<[^>]+>", "", s)`: removes every maximal `<...>` group
holding at least one character none of which is `>`. -/
def stripTags (s : List Char) : List Char :=
  stripTagsFuel s.length s

/-- Literal `http`. -/
def httpPre : List Char := ['h', 't', 't', 'p']

/-- Literal `http://`. -/
def httpTok : List Char := ['h', 't', 't', 'p', ':', '/', '/']

/-- Literal `https://`. -/
def httpsTok : List Char := ['h', 't', 't', 'p', 's', ':', '/', '/']

/-- First match of `re.findall(r'https?://\S+', content)`: the first
position holding `http://` or `https://` followed by at least one
non-whitespace character, extended over the maximal non-whitespace run. -/
def firstUrl : List Char → Option (List Char)
  | [] => none
  | c :: rest =>
    if isPre httpsTok (c :: rest) then
      let tok := ((c :: rest).drop httpsTok.length).takeWhile (fun ch => !isPySpace ch)
      if tok ≠ [] then some (httpsTok ++ tok) else firstUrl rest
    else if isPre httpTok (c :: rest) then
      let tok := ((c :: rest).drop httpTok.length).takeWhile (fun ch => !isPySpace ch)
      if tok ≠ [] then some (httpTok ++ tok) else firstUrl rest
    else firstUrl rest

/-- `links[0] if links else ""` over the matches of the URL scan. -/
def extractUrl (content : List Char) : List Char :=
  (firstUrl content).getD []

/-! ### Data model (`state.py`)

`State` in `state.py` declares `search_results`, `news_articles`,
`linkedin_article`, `linkedin_post`, `current_node` and `error`; the nodes
additionally store `selected_articles`, `needs_rewrite` and
`quality_evaluation` on the state (the spec's candidate list, rewrite flag
and stored feedback), so those fields are included here with the defaults
the spec gives them (empty, false, absent).  `quality_evaluation` holds the
`"feedback"` entry of the dict the review node stores. -/

/-- `NewsArticle` of `state.py`. -/
structure NewsArticle where
  title : List Char := []
  content : List Char := []
  type : List Char := ['g', 'e', 'n', 'e', 'r', 'a', 'l']
  url : List Char := []
deriving DecidableEq, Repr

/-- Article used for the (unreachable) default of validated indexing. -/
def defaultArticle : NewsArticle := {}

/-- The workflow state threaded through every node. -/
structure State where
  news_articles : Option (List NewsArticle) := none
  selected_articles : Option (List NewsArticle) := none
  linkedin_article : Option NewsArticle := none
  linkedin_post : Option (List Char) := none
  current_node : Option (List Char) := some "__start__".data
  error : Option (List Char) := none
  needs_rewrite : Bool := false
  quality_evaluation : Option (List Char) := none
deriving DecidableEq, Repr

/-- `fetch_ai_news_rss_node`, after the remote feed has been parsed into a
list of entry bodies: no entries is an error; otherwise the first entry's
summary is segmented into articles.  Each article gets the markup-stripped,
trimmed headline and content and the first URL of the unstripped content. -/
def extractArticles (body : List Char) : List NewsArticle :=
  (findHeadlines body).map fun hc =>
    { title := pyStrip (stripTags hc.1)
      content := pyStrip (stripTags hc.2)
      url := extractUrl hc.2 }

/-- Error message of the empty-feed branch. -/
def noEntriesMsg : List Char := "No entries found in the RSS feed.".data

/-- `fetch_ai_news_rss_node` (success path of `feedparser.parse` modelled
by the list of entry summaries). -/
def fetch_ai_news_rss_node (entries : List (List Char)) : State :=
  match entries with
  | [] => { error := some noEntriesMsg }
  | body :: _ => { news_articles := some (extractArticles body) }

/-! ### Deduplication and ranking (`choose_relevant_article_node`) -/

/-- `article.title.lower().strip()`. -/
def normTitle (a : NewsArticle) : List Char :=
  pyStrip (pyLower a.title)

/-- `article.content[:200].lower().strip()`. -/
def normContent (a : NewsArticle) : List Char :=
  pyStrip (pyLower (a.content.take 200))

/-- The deduplication loop with its two `seen` sets. -/
def dedupAux : List NewsArticle → List (List Char) → List (List Char) → List NewsArticle
  | [], _, _ => []
  | a :: rest, seenT, seenC =>
    if normTitle a ∉ seenT ∧ normContent a ∉ seenC then
      a :: dedupAux rest (normTitle a :: seenT) (normContent a :: seenC)
    else dedupAux rest seenT seenC

/-- The duplicate filter of `choose_relevant_article_node`: keep an article
when both its normalised title and its normalised content prefix are new,
recording the keys of kept articles only. -/
def dedupArticles (arts : List NewsArticle) : List NewsArticle :=
  dedupAux arts [] []

/-- Error message of the empty-input branch. -/
def noArticlesMsg : List Char := "No articles available to choose from".data

/-- Error message of the empty-after-dedup branch. -/
def noUniqueMsg : List Char := "No unique articles available to choose from".data

/-- Error message of the no-valid-indices branch. -/
def noValidMsg : List Char := "No valid article indices were selected".data

/-- Leading part of the unparseable-response error message; the raw model
response is appended to it. -/
def parseErrMsgPre : List Char :=
  "Error in 'choose_relevant_article': Could not parse LLM response as integers. Response was: ".data

/-- Index validation and truncation:
`[idx for idx in selected_indices if 0 <= idx < n][:5]`. -/
def validIdx (idxs : List Int) (n : Nat) : List Int :=
  (idxs.filter fun i => decide (0 ≤ i) && decide (i < (n : Int))).take 5

/-- `choose_relevant_article_node`; `resp` is the text the language model
returned for the ranking prompt. -/
def choose_relevant_article_node (s0 : State) (resp : List Char) : State :=
  let s := { s0 with current_node := some "choose_relevant_article".data }
  match s.news_articles with
  | none => { s with error := some noArticlesMsg }
  | some arts =>
    if arts = [] then { s with error := some noArticlesMsg }
    else
      let unique := dedupArticles arts
      if unique = [] then { s with error := some noUniqueMsg }
      else
        match parseAll (splitComma resp) with
        | none => { s with error := some (parseErrMsgPre ++ resp) }
        | some idxs =>
          let valid := validIdx idxs unique.length
          if valid = [] then { s with error := some noValidMsg }
          else { s with selected_articles := some (valid.map fun i => unique.getD i.toNat defaultArticle) }

/-! ### Human selection (`select_article_node`) -/

/-- Error message of the empty-candidates branch. -/
def noSelectionMsg : List Char := "No articles available for selection".data

/-- The selection loop: each input line is parsed with `int(line.strip())`;
non-numeric and out-of-range lines re-prompt; `none` models an exhausted
input stream (the operator still blocked). -/
def selectLoop (arts : List NewsArticle) (s : State) : List (List Char) → Option State
  | [] => none
  | line :: rest =>
    match parseInt? line with
    | none => selectLoop arts s rest
    | some i =>
      if 1 ≤ i ∧ i ≤ (arts.length : Int) then
        some { s with linkedin_article := some (arts.getD (i - 1).toNat defaultArticle) }
      else selectLoop arts s rest

/-- `select_article_node`; `inputs` are the operator's console lines. -/
def select_article_node (s0 : State) (inputs : List (List Char)) : Option State :=
  let s := { s0 with current_node := some "select_article".data }
  match s.selected_articles with
  | none => some { s with error := some noSelectionMsg }
  | some arts =>
    if arts = [] then some { s with error := some noSelectionMsg }
    else selectLoop arts s inputs

/-! ### Draft generation (`generate_linkedin_post_node`)

The prompt text of the Python triple-quoted literals is reproduced with the
per-line indentation elided.  The node is modelled against the result of
`base_llm.invoke` on `generatePrompt`: `Except.ok` carries the returned
draft, `Except.error` the exception message. -/

/-- The fixed style rubric (`base_prompt`). -/
def basePrompt : List Char :=
  ("\nCreate an engaging LinkedIn post about this article. Follow these guidelines:\n\nSTRUCTURE:\n1. Hook (1 line): Start with a compelling insight or observation\n2. Context (2-3 lines): Connect the topic to real-world impact\n3. Key Insights (2-4 lines): Share main takeaways in clear, concise points\n4. Value (1 line): Highlight professional significance\n5. Call to Action: End with an engaging question or prompt\n\nWRITING STYLE:\n- Use clear, straightforward language\n- Write short, impactful sentences\n- Organize ideas with bullet points\n- Add frequent line breaks between concepts\n- Use active voice\n- Focus on practical, actionable insights\n- Support points with specific examples or data\n- Address the reader directly using \"you\" and \"your\"\n- Pose thought-provoking questions\n- Skip introductory phrases like \"in conclusion\" or \"in summary\"\n- Avoid warnings, notes, or unnecessary extras\n\nAVOID:\n- Emojis, hashtags, semicolons, and asterisks\n- Cliches and metaphors\n- Broad generalizations\n- Passive voice\n- These words: Accordingly, Additionally, Arguably, Certainly, Consequently, Hence, However, Indeed, Moreover, Nevertheless, Nonetheless, Notwithstanding, Thus, Undoubtedly, Adept, Commendable, Dynamic\n").data

/-- Text between the rubric and the previous draft in the rewrite prompt. -/
def rewriteCtxPre : List Char :=
  "\n\nThe previous version of the post needs improvement based on user feedback.\nHere's the context:\n\nOriginal Post:\n".data

/-- Header preceding the stored feedback in the rewrite prompt. -/
def userFeedbackHdr : List Char := "\n\nUser Feedback:\n".data

/-- Header preceding the article content in both prompt variants. -/
def articleHdr : List Char := "\n\nArticle to write about:\n".data

/-- Closing instruction of the rewrite prompt. -/
def rewriteTail : List Char :=
  "\n\nPlease generate an improved version of the post that addresses the user's feedback while maintaining the same high-quality structure and style.\n".data

/-- Python renders `None` in an f-string as the text `None`. -/
def noneStr : List Char := "None".data

/-- The prompt sent to the language model by `generate_linkedin_post_node`
(`article` is `state.linkedin_article.content`): the rewrite variant is
taken exactly when the stored feedback is present and the rewrite flag is
set. -/
def generatePrompt (s : State) (article : List Char) : List Char :=
  if s.quality_evaluation.isSome ∧ s.needs_rewrite then
    basePrompt ++ rewriteCtxPre ++ s.linkedin_post.getD noneStr ++
      userFeedbackHdr ++ s.quality_evaluation.getD [] ++
      articleHdr ++ article ++ rewriteTail
  else basePrompt ++ articleHdr ++ article

/-- Leading part of the generation error message. -/
def genErrPre : List Char := "Error generating LinkedIn post: ".data

/-- Message of the exception raised when `state.linkedin_article` is absent
(the attribute access on `None`; exact interpreter wording abstracted). -/
def noneArticleAttrMsg : List Char :=
  "'NoneType' object has no attribute 'content'".data

/-- `generate_linkedin_post_node`; `llm` is the outcome of the single model
invocation on `generatePrompt`. -/
def generate_linkedin_post_node (s : State) (llm : Except (List Char) (List Char)) : State :=
  match s.linkedin_article with
  | none => { s with error := some (genErrPre ++ noneArticleAttrMsg) }
  | some _ =>
    match llm with
    | .ok post => { s with linkedin_post := some post }
    | .error e => { s with error := some (genErrPre ++ e) }

/-! ### Review gate (`get_user_feedback_node`) -/

/-- Error message of the missing-draft branch. -/
def noPostMsg : List Char := "No LinkedIn post available for feedback".data

/-- The feedback loop over the operator's console lines: `"1"` approves
(only the rewrite flag is touched), `"2"` reads one feedback line which is
stored stripped when non-empty, anything else re-prompts; `none` models an
exhausted input stream. -/
def reviewLoop (s : State) : List (List Char) → Option State
  | [] => none
  | line :: rest =>
    let c := pyStrip line
    if c = ['1'] then some { s with needs_rewrite := false }
    else if c = ['2'] then
      match rest with
      | [] => none
      | fbLine :: rest2 =>
        let fb := pyStrip fbLine
        if fb ≠ [] then some { s with quality_evaluation := some fb, needs_rewrite := true }
        else reviewLoop s rest2
    else reviewLoop s rest

/-- `get_user_feedback_node`; `inputs` are the operator's console lines. -/
def get_user_feedback_node (s0 : State) (inputs : List (List Char)) : Option State :=
  let s := { s0 with current_node := some "get_user_feedback".data }
  match s.linkedin_post with
  | none => some { s with error := some noPostMsg }
  | some p =>
    if p = [] then some { s with error := some noPostMsg }
    else reviewLoop s inputs

/-! ### Persistence (`save_linkedin_post_node`) -/

/-- Leading part of the save error message. -/
def saveErrPre : List Char := "Failed to save LinkedIn post to file: ".data

/-- Message of the exception raised by `f.write(None)` (exact interpreter
wording abstracted). -/
def noneWriteMsg : List Char := "write() argument must be str, not None".data

/-- `save_linkedin_post_node`; `io` is the outcome of the file write. -/
def save_linkedin_post_node (s0 : State) (io : Except (List Char) Unit) : State :=
  let s := { s0 with current_node := some "save_linkedin_post".data }
  match s.linkedin_post with
  | none => { s with error := some (saveErrPre ++ noneWriteMsg) }
  | some _ =>
    match io with
    | .ok _ => s
    | .error e => { s with error := some (saveErrPre ++ e) }

/-! ### Workflow controller (`build_workflow`, `determine_next_step`) -/

/-- The graph's vertices; `finish` models langgraph's `END`. -/
inductive Node where
  | start
  | fetch_ai_news_rss
  | choose_relevant_article
  | select_article
  | generate_linkedin_post
  | get_user_feedback
  | save_linkedin_post
  | finish
deriving DecidableEq, Repr, Fintype

/-- `determine_next_step`: the conditional router after the review gate. -/
def determine_next_step (s : State) : List Char :=
  if s.needs_rewrite then "generate_linkedin_post".data else "save_linkedin_post".data

/-- The controller's routing, as wired by `build_workflow`: every edge is
unconditional except the one out of the review gate, which is mapped
through `determine_next_step`. -/
def route : Node → State → Option Node
  | .start, _ => some .fetch_ai_news_rss
  | .fetch_ai_news_rss, _ => some .choose_relevant_article
  | .choose_relevant_article, _ => some .select_article
  | .select_article, _ => some .generate_linkedin_post
  | .generate_linkedin_post, _ => some .get_user_feedback
  | .get_user_feedback, s =>
    if determine_next_step s = "generate_linkedin_post".data then some .generate_linkedin_post
    else if determine_next_step s = "save_linkedin_post".data then some .save_linkedin_post
    else none
  | .save_linkedin_post, _ => some .finish
  | .finish, _ => none

/-- The static successor sets of the graph (the targets of `add_edge` and
`add_conditional_edges`). -/
def successors : Node → List Node
  | .start => [.fetch_ai_news_rss]
  | .fetch_ai_news_rss => [.choose_relevant_article]
  | .choose_relevant_article => [.select_article]
  | .select_article => [.generate_linkedin_post]
  | .generate_linkedin_post => [.get_user_feedback]
  | .get_user_feedback => [.generate_linkedin_post, .save_linkedin_post]
  | .save_linkedin_post => [.finish]
  | .finish => []

/-- Topological rank of the vertices: every edge increases it except the
review-to-draft back edge. -/
def rank : Node → Nat
  | .start => 0
  | .fetch_ai_news_rss => 1
  | .choose_relevant_article => 2
  | .select_article => 3
  | .generate_linkedin_post => 4
  | .get_user_feedback => 5
  | .save_linkedin_post => 6
  | .finish => 7

/-! ### Well-formed segments

A well-formed heading/divider segment of a feed-entry body, as the spec
describes it: optional preceding text, then `<h3`, attribute text, `>`, the
headline text, `</h3>`, the story content, `<hr />`.  `segOk` states the
non-interference conditions under which the piece boundaries are exactly
the ones the lazy scan finds: the preceding text holds no `<h3`, the
attribute text no `>`, the headline no `</h3>` and the content no
`<hr />`. -/

/-- The four pieces of one well-formed segment. -/
structure Seg where
  junk : List Char
  attrs : List Char
  htext : List Char
  body : List Char
deriving DecidableEq, Repr

/-- Non-interference of the pieces with the markers that bound them. -/
def segOk (g : Seg) : Prop :=
  splitFirst h3open g.junk = none ∧ splitFirst gtTok g.attrs = none ∧
    splitFirst h3close g.htext = none ∧ splitFirst hrTok g.body = none

instance (g : Seg) : Decidable (segOk g) := by
  unfold segOk
  infer_instance

/-- The markup text of one well-formed segment. -/
def segRender (g : Seg) : List Char :=
  g.junk ++ h3open ++ g.attrs ++ gtTok ++ g.htext ++ h3close ++ g.body ++ hrTok

/-- A feed-entry body: well-formed segments in order, then a trailing rest. -/
def renderBody : List Seg → List Char → List Char
  | [], tail => tail
  | g :: gs, tail => segRender g ++ renderBody gs tail

/-- The article record the extractor owes one well-formed segment. -/
def segArticle (g : Seg) : NewsArticle :=
  { title := pyStrip (stripTags g.htext)
    content := pyStrip (stripTags g.body)
    url := extractUrl g.body }

/-- A pattern none of whose proper suffix positions restarts the pattern;
for such a pattern an occurrence can never straddle the boundary of an
explicitly appended copy. -/
def borderFree (p : List Char) : Prop :=
  ∀ k, k < p.length → 0 < k → isPre (p.drop k) p = false

/-- Article fixture `k`: title `t<k>`, content `c<k>`. -/
def artW (k : Char) : NewsArticle :=
  { title := ['t', k], content := ['c', k] }

/-! ## Theorems -/

/-! ### Prefix and first-occurrence lemmas -/

/-- A list is a prefix of itself followed by anything. -/
theorem isPre_append_self (p t : List Char) : isPre p (p ++ t) = true := by
  induction p with
  | nil => rfl
  | cons a as ih => simpa [isPre] using ih

/-- A verified prefix splits the list. -/
theorem eq_of_isPre {p s : List Char} (h : isPre p s = true) :
    s = p ++ s.drop p.length := by
  induction p generalizing s with
  | nil => simp
  | cons a as ih =>
    cases s with
    | nil => simp [isPre] at h
    | cons b bs =>
      by_cases hab : a = b
      · subst hab
        have h2 : isPre as bs = true := by simpa [isPre] using h
        simpa [List.drop_succ_cons] using ih h2
      · simp [isPre, hab] at h

/-- A prefix of an appended list not reaching past the first part is a
prefix of the first part. -/
theorem isPre_left_of_append {p a b : List Char} (h : isPre p (a ++ b) = true)
    (hl : p.length ≤ a.length) : isPre p a = true := by
  induction p generalizing a with
  | nil => rfl
  | cons c cs ih =>
    cases a with
    | nil => simp at hl
    | cons d ds =>
      by_cases hcd : c = d
      · subst hcd
        have h2 : isPre cs (ds ++ b) = true := by simpa [isPre] using h
        have h3 := ih h2 (by simpa using hl)
        simpa [isPre] using h3
      · simp [isPre, hcd] at h

/-- Shortening a verified prefix keeps it a prefix. -/
theorem isPre_of_isPre_append {a e s : List Char} (h : isPre (a ++ e) s = true) :
    isPre a s = true := by
  induction a generalizing s with
  | nil => rfl
  | cons c cs ih =>
    cases s with
    | nil => simp [isPre] at h
    | cons d ds =>
      by_cases hcd : c = d
      · subst hcd
        have h2 : isPre (cs ++ e) ds = true := by simpa [isPre] using h
        simpa [isPre] using ih h2
      · simp [isPre, hcd] at h

/-- Cancelling a common leading part of a prefix test. -/
theorem isPre_cancel_left (x u v : List Char) : isPre (x ++ u) (x ++ v) = isPre u v := by
  induction x with
  | nil => rfl
  | cons c cs ih => simpa [isPre] using ih

/-- A failed search leaves no occurrence at the head and none in the tail. -/
theorem splitFirst_none_cons {p : List Char} {c : Char} {t : List Char}
    (h : splitFirst p (c :: t) = none) :
    isPre p (c :: t) = false ∧ splitFirst p t = none := by
  by_cases hp : isPre p (c :: t) = true
  · simp [splitFirst, hp] at h
  · refine ⟨by simpa using hp, ?_⟩
    cases hst : splitFirst p t with
    | none => rfl
    | some pr => obtain ⟨pp, rr⟩ := pr; simp [splitFirst, hp, hst] at h

/-- A successful search decomposes the list at the occurrence it found. -/
theorem splitFirst_eq_append {p s pre suf : List Char}
    (h : splitFirst p s = some (pre, suf)) : s = pre ++ p ++ suf := by
  induction s generalizing pre suf with
  | nil =>
    by_cases hp : p = []
    · subst hp
      simp [splitFirst] at h
      obtain ⟨h1, h2⟩ := h
      subst h1; subst h2; rfl
    · simp [splitFirst, hp] at h
  | cons c rest ih =>
    by_cases hp : isPre p (c :: rest) = true
    · have hh : splitFirst p (c :: rest) = some ([], (c :: rest).drop p.length) := by
        simp [splitFirst, hp]
      rw [hh] at h
      injection h with h'
      cases h'
      simpa using eq_of_isPre hp
    · cases hst : splitFirst p rest with
      | none => simp [splitFirst, hp, hst] at h
      | some pr =>
        obtain ⟨pp, rr⟩ := pr
        have hh : splitFirst p (c :: rest) = some (c :: pp, rr) := by
          simp [splitFirst, hp, hst]
        rw [hh] at h
        injection h with h'
        cases h'
        simpa using ih hst

/-- Two prefixes of one list are comparable: the shorter one is a prefix of
the longer one. -/
theorem isPre_of_mutual {a b s : List Char} (ha : isPre a s = true)
    (hb : isPre b s = true) (hl : b.length ≤ a.length) : isPre b a = true := by
  induction b generalizing a s with
  | nil => rfl
  | cons c cs ih =>
    cases a with
    | nil => simp at hl
    | cons d ds =>
      cases s with
      | nil => simp [isPre] at ha
      | cons e es =>
        by_cases hde : d = e
        · subst hde
          by_cases hcd : c = d
          · subst hcd
            have ha2 : isPre ds es = true := by simpa [isPre] using ha
            have hb2 : isPre cs es = true := by simpa [isPre] using hb
            simpa [isPre] using ih ha2 hb2 (by simpa using hl)
          · simp [isPre, hcd] at hb
        · simp [isPre, hde] at ha

/-- Searching for a non-empty pattern starting right at a copy of it finds
that copy. -/
theorem splitFirst_self_append {p : List Char} (hp : p ≠ []) (y : List Char) :
    splitFirst p (p ++ y) = some ([], y) := by
  obtain ⟨c, t, rfl⟩ : ∃ c t, p = c :: t := by
    cases p with
    | nil => exact absurd rfl hp
    | cons c t => exact ⟨c, t, rfl⟩
  have h1 : isPre (c :: t) (c :: (t ++ y)) = true := isPre_append_self (c :: t) y
  simp [splitFirst, h1, List.drop_left]

/-- Searching for a border-free pattern across a pattern-free part followed
by an explicit copy finds exactly that copy. -/
theorem splitFirst_sandwich {p : List Char} (hp : p ≠ []) (hb : borderFree p)
    {x : List Char} (hx : splitFirst p x = none) (y : List Char) :
    splitFirst p (x ++ (p ++ y)) = some (x, y) := by
  induction x with
  | nil => simpa using splitFirst_self_append hp y
  | cons c x' ih =>
    obtain ⟨h1, h2⟩ := splitFirst_none_cons hx
    have hpre : isPre p (c :: (x' ++ (p ++ y))) = false := by
      by_cases hc : isPre p (c :: (x' ++ (p ++ y))) = true
      · exfalso
        have hc' : isPre p ((c :: x') ++ (p ++ y)) = true := by
          rw [List.cons_append]; exact hc
        by_cases hlen : p.length ≤ (c :: x').length
        · exact absurd (isPre_left_of_append hc' hlen) (by simp [h1])
        · push_neg at hlen
          have hxs : isPre (c :: x') ((c :: x') ++ (p ++ y)) = true :=
            isPre_append_self (c :: x') (p ++ y)
          have hxp : isPre (c :: x') p = true := isPre_of_mutual hc' hxs (le_of_lt hlen)
          have hpd := eq_of_isPre hxp
          have hdrop : isPre (p.drop (c :: x').length) (p ++ y) = true := by
            have hcl : isPre ((c :: x') ++ p.drop (c :: x').length)
                ((c :: x') ++ (p ++ y)) = true := by rw [← hpd]; exact hc'
            rw [isPre_cancel_left] at hcl
            exact hcl
          have hdp : isPre (p.drop (c :: x').length) p = true :=
            isPre_left_of_append hdrop (by simp [List.length_drop])
          have hbf := hb (c :: x').length hlen (by simp)
          rw [hbf] at hdp
          exact Bool.false_ne_true hdp
      · simpa using hc
    have hrec := ih h2
    simp [splitFirst, hpre, hrec]

/-- `<h3` restarts at none of its proper suffix positions. -/
theorem borderFree_h3open : borderFree h3open := by unfold borderFree; decide

/-- `>` restarts at none of its proper suffix positions. -/
theorem borderFree_gtTok : borderFree gtTok := by unfold borderFree; decide

/-- `</h3>` restarts at none of its proper suffix positions. -/
theorem borderFree_h3close : borderFree h3close := by unfold borderFree; decide

/-- `<hr />` restarts at none of its proper suffix positions. -/
theorem borderFree_hrTok : borderFree hrTok := by unfold borderFree; decide

/-- A successful search in a suffix gives a successful search in the whole
list. -/
theorem splitFirst_isSome_append {p y : List Char} (x : List Char)
    (h : (splitFirst p y).isSome) : (splitFirst p (x ++ y)).isSome := by
  induction x with
  | nil => simpa using h
  | cons c x' ih =>
    obtain ⟨pr, hpr⟩ := Option.isSome_iff_exists.mp ih
    obtain ⟨pp, rr⟩ := pr
    by_cases hp : isPre p (c :: (x' ++ y)) = true
    · simp [splitFirst, hp]
    · simp [splitFirst, hp, hpr]

/-- If the pattern occurs nowhere in an appended list it occurs nowhere in
the second part. -/
theorem splitFirst_none_of_append {p x y : List Char}
    (h : splitFirst p (x ++ y) = none) : splitFirst p y = none := by
  cases hst : splitFirst p y with
  | none => rfl
  | some pr =>
    have hs : (splitFirst p y).isSome := by simp [hst]
    have := splitFirst_isSome_append x hs
    simp [h] at this

/-! ### Scan lemmas for the feed extractor -/

/-- The scan yields nothing on the empty body, whatever the fuel. -/
theorem findHeadlinesFuel_nil (f : Nat) : findHeadlinesFuel f [] = [] := by
  cases f with
  | zero => rfl
  | succ g => simp [findHeadlinesFuel, splitFirst, h3open]

/-- The fuel is irrelevant once it covers the length of the input. -/
theorem findHeadlinesFuel_congr :
    ∀ f1 f2 s, s.length ≤ f1 → s.length ≤ f2 →
      findHeadlinesFuel f1 s = findHeadlinesFuel f2 s := by
  intro f1
  induction f1 with
  | zero =>
    intro f2 s h1 _
    have hs : s = [] := List.eq_nil_of_length_eq_zero (Nat.le_zero.mp h1)
    subst hs
    simp [findHeadlinesFuel_nil]
  | succ g ih =>
    intro f2 s h1 h2
    cases f2 with
    | zero =>
      have hs : s = [] := List.eq_nil_of_length_eq_zero (Nat.le_zero.mp h2)
      subst hs
      simp [findHeadlinesFuel_nil]
    | succ g2 =>
      cases hs1 : splitFirst h3open s with
      | none => simp [findHeadlinesFuel, hs1]
      | some pr1 =>
        obtain ⟨p1, r1⟩ := pr1
        cases hs2 : splitFirst gtTok r1 with
        | none => simp [findHeadlinesFuel, hs1, hs2]
        | some pr2 =>
          obtain ⟨p2, r2⟩ := pr2
          cases hs3 : splitFirst h3close r2 with
          | none => simp [findHeadlinesFuel, hs1, hs2, hs3]
          | some pr3 =>
            obtain ⟨hh, r3⟩ := pr3
            cases hs4 : splitFirst hrTok r3 with
            | none => simp [findHeadlinesFuel, hs1, hs2, hs3, hs4]
            | some pr4 =>
              obtain ⟨cc, r4⟩ := pr4
              have e1 := congrArg List.length (splitFirst_eq_append hs1)
              have e2 := congrArg List.length (splitFirst_eq_append hs2)
              have e3 := congrArg List.length (splitFirst_eq_append hs3)
              have e4 := congrArg List.length (splitFirst_eq_append hs4)
              simp [List.length_append, h3open, gtTok, h3close, hrTok] at e1 e2 e3 e4
              have hr : findHeadlinesFuel g r4 = findHeadlinesFuel g2 r4 :=
                ih g2 r4 (by omega) (by omega)
              simp [findHeadlinesFuel, hs1, hs2, hs3, hs4, hr]

/-- No `<h3` in the body: the extractor finds nothing. -/
theorem findHeadlines_nil_of_h3_none {s : List Char}
    (h : splitFirst h3open s = none) : findHeadlines s = [] := by
  cases s with
  | nil => rfl
  | cons c t => simp [findHeadlines, findHeadlinesFuel, h]

/-- One well-delimited match: the scan records it and proceeds after the
divider. -/
theorem findHeadlines_step {s p1 r1 p2 r2 hh r3 cc r4 : List Char}
    (h1 : splitFirst h3open s = some (p1, r1))
    (h2 : splitFirst gtTok r1 = some (p2, r2))
    (h3 : splitFirst h3close r2 = some (hh, r3))
    (h4 : splitFirst hrTok r3 = some (cc, r4)) :
    findHeadlines s = (hh, cc) :: findHeadlines r4 := by
  have e1 := congrArg List.length (splitFirst_eq_append h1)
  have e2 := congrArg List.length (splitFirst_eq_append h2)
  have e3 := congrArg List.length (splitFirst_eq_append h3)
  have e4 := congrArg List.length (splitFirst_eq_append h4)
  simp [List.length_append, h3open, gtTok, h3close, hrTok] at e1 e2 e3 e4
  obtain ⟨k, hk⟩ : ∃ k, s.length = k + 1 := by
    cases s with
    | nil => simp [splitFirst, h3open] at h1
    | cons c t => exact ⟨t.length, by simp⟩
  have hr : findHeadlinesFuel k r4 = findHeadlinesFuel r4.length r4 :=
    findHeadlinesFuel_congr k r4.length r4 (by omega) (by omega)
  rw [findHeadlines, hk, findHeadlines]
  simp [findHeadlinesFuel, h1, h2, h3, h4, hr]

/-- No `<hr />` anywhere in the body: the extractor finds nothing. -/
theorem findHeadlines_nil_of_hr_none {s : List Char}
    (h : splitFirst hrTok s = none) : findHeadlines s = [] := by
  cases s with
  | nil => rfl
  | cons c t =>
    rw [findHeadlines]
    cases hs1 : splitFirst h3open (c :: t) with
    | none => simp [findHeadlinesFuel, hs1]
    | some pr1 =>
      obtain ⟨p1, r1⟩ := pr1
      cases hs2 : splitFirst gtTok r1 with
      | none => simp [findHeadlinesFuel, hs1, hs2]
      | some pr2 =>
        obtain ⟨p2, r2⟩ := pr2
        cases hs3 : splitFirst h3close r2 with
        | none => simp [findHeadlinesFuel, hs1, hs2, hs3]
        | some pr3 =>
          obtain ⟨hh, r3⟩ := pr3
          have hr3 : splitFirst hrTok r3 = none := by
            have e1 := splitFirst_eq_append hs1
            have e2 := splitFirst_eq_append hs2
            have e3 := splitFirst_eq_append hs3
            apply splitFirst_none_of_append (x := (p2 ++ gtTok) ++ (hh ++ h3close))
            apply splitFirst_none_of_append (x := p1 ++ h3open)
            have hshape : (c :: t) =
                (p1 ++ h3open) ++ (((p2 ++ gtTok) ++ (hh ++ h3close)) ++ r3) := by
              rw [e1, e2, e3]; simp [List.append_assoc]
            rw [← hshape]
            exact h
          simp [findHeadlinesFuel, hs1, hs2, hs3, hr3]

/-- The scan on a body of well-formed segments followed by a matchless
tail yields exactly the headline/content pair of each segment, in order. -/
theorem findHeadlines_renderBody (gs : List Seg) (tail : List Char)
    (hseg : ∀ g ∈ gs, segOk g) (htail : findHeadlines tail = []) :
    findHeadlines (renderBody gs tail) = gs.map fun g => (g.htext, g.body) := by
  induction gs with
  | nil => simpa [renderBody] using htail
  | cons g gs ih =>
    obtain ⟨hj, ha, ht, hb⟩ := hseg g (by simp)
    have hrest := ih fun g' hg' => hseg g' (by simp [hg'])
    have h1 : splitFirst h3open (renderBody (g :: gs) tail) =
        some (g.junk, g.attrs ++ (gtTok ++ (g.htext ++
          (h3close ++ (g.body ++ (hrTok ++ renderBody gs tail)))))) := by
      have hs := splitFirst_sandwich (p := h3open) (by simp [h3open])
        borderFree_h3open hj (g.attrs ++ (gtTok ++ (g.htext ++
          (h3close ++ (g.body ++ (hrTok ++ renderBody gs tail))))))
      have hshape : renderBody (g :: gs) tail = g.junk ++ (h3open ++
          (g.attrs ++ (gtTok ++ (g.htext ++
            (h3close ++ (g.body ++ (hrTok ++ renderBody gs tail))))))) := by
        simp [renderBody, segRender, List.append_assoc]
      rw [hshape]
      exact hs
    have h2 : splitFirst gtTok (g.attrs ++ (gtTok ++ (g.htext ++
        (h3close ++ (g.body ++ (hrTok ++ renderBody gs tail)))))) =
        some (g.attrs, g.htext ++ (h3close ++ (g.body ++ (hrTok ++ renderBody gs tail)))) :=
      splitFirst_sandwich (by simp [gtTok]) borderFree_gtTok ha _
    have h3 : splitFirst h3close (g.htext ++ (h3close ++ (g.body ++
        (hrTok ++ renderBody gs tail)))) =
        some (g.htext, g.body ++ (hrTok ++ renderBody gs tail)) :=
      splitFirst_sandwich (by simp [h3close]) borderFree_h3close ht _
    have h4 : splitFirst hrTok (g.body ++ (hrTok ++ renderBody gs tail)) =
        some (g.body, renderBody gs tail) :=
      splitFirst_sandwich (by simp [hrTok]) borderFree_hrTok hb _
    rw [findHeadlines_step h1 h2 h3 h4, hrest]
    simp

/-- The extractor on a body of well-formed segments followed by a
matchless tail yields exactly one stripped, trimmed record per segment. -/
theorem extractArticles_renderBody (gs : List Seg) (tail : List Char)
    (hseg : ∀ g ∈ gs, segOk g) (htail : findHeadlines tail = []) :
    extractArticles (renderBody gs tail) = gs.map segArticle := by
  rw [extractArticles, findHeadlines_renderBody gs tail hseg htail]
  simp [segArticle, List.map_map, Function.comp]

/-! ### URL-scan lemmas -/

/-- `takeWhile` passes over a block every element of which satisfies the
test. -/
theorem takeWhile_append_all {p : Char → Bool} {l1 l2 : List Char}
    (h : ∀ x ∈ l1, p x = true) :
    (l1 ++ l2).takeWhile p = l1 ++ l2.takeWhile p := by
  induction l1 with
  | nil => rfl
  | cons c cs ih =>
    simp only [List.cons_append, List.takeWhile_cons, h c (by simp)]
    simpa using ih fun x hx => h x (by simp [hx])

/-- `takeWhile` stops immediately on an empty list or a failing head. -/
theorem takeWhile_nilHead {p : Char → Bool} {l : List Char}
    (h : l = [] ∨ ∃ d r, l = d :: r ∧ p d = false) : l.takeWhile p = [] := by
  rcases h with rfl | ⟨d, r, rfl, hd⟩
  · rfl
  · simp [List.takeWhile_cons, hd]

/-- A body without the four characters `http` has no URL match at all. -/
theorem firstUrl_none_of_no_http {s : List Char}
    (h : splitFirst httpPre s = none) : firstUrl s = none := by
  induction s with
  | nil => rfl
  | cons c rest ih =>
    obtain ⟨h1, h2⟩ := splitFirst_none_cons h
    have hs : isPre httpsTok (c :: rest) = false := by
      cases hb : isPre httpsTok (c :: rest) with
      | false => rfl
      | true =>
        have h4 := isPre_of_isPre_append
          (show isPre (httpPre ++ ['s', ':', '/', '/']) (c :: rest) = true from hb)
        rw [h1] at h4
        exact absurd h4 (by simp)
    have ht : isPre httpTok (c :: rest) = false := by
      cases hb : isPre httpTok (c :: rest) with
      | false => rfl
      | true =>
        have h4 := isPre_of_isPre_append
          (show isPre (httpPre ++ [':', '/', '/']) (c :: rest) = true from hb)
        rw [h1] at h4
        exact absurd h4 (by simp)
    simp [firstUrl, hs, ht, ih h2]

/-- The URL scan on text whose first `http` characters open an explicit
scheme-and-token link returns exactly that link: the scheme together with
the maximal non-whitespace run after it. -/
theorem firstUrl_append_token {sch tok suffix : List Char}
    (hsch : sch = httpTok ∨ sch = httpsTok)
    (htne : tok ≠ []) (htok : ∀ ch ∈ tok, isPySpace ch = false)
    (hsuf : suffix = [] ∨ ∃ d r, suffix = d :: r ∧ isPySpace d = true) :
    ∀ pre : List Char, splitFirst httpPre pre = none →
      firstUrl (pre ++ (sch ++ (tok ++ suffix))) = some (sch ++ tok) := by
  have htw : (tok ++ suffix).takeWhile (fun ch => !isPySpace ch) = tok := by
    rw [takeWhile_append_all fun x hx => by simp [htok x hx]]
    rw [takeWhile_nilHead (p := fun ch => !isPySpace ch)]
    · simp
    · rcases hsuf with rfl | ⟨d, r, rfl, hd⟩
      · exact Or.inl rfl
      · exact Or.inr ⟨d, r, rfl, by simp [hd]⟩
  intro pre
  induction pre with
  | nil =>
    intro _
    rcases hsch with rfl | rfl
    · simp [firstUrl, httpTok, httpsTok, List.cons_append, isPre, htw, htne]
    · simp [firstUrl, httpsTok, List.cons_append, isPre, htw, htne]
  | cons c pre' ih =>
    intro hpre
    obtain ⟨h1, h2⟩ := splitFirst_none_cons hpre
    have hp4 : isPre httpPre ((c :: pre') ++ (sch ++ (tok ++ suffix))) = false := by
      cases hb : isPre httpPre ((c :: pre') ++ (sch ++ (tok ++ suffix))) with
      | false => rfl
      | true =>
        exfalso
        by_cases hlen : httpPre.length ≤ (c :: pre').length
        · exact absurd (isPre_left_of_append hb hlen) (by simp [h1])
        · push_neg at hlen
          have hxp : isPre (c :: pre') httpPre = true :=
            isPre_of_mutual hb (isPre_append_self (c :: pre') _) (le_of_lt hlen)
          have hpd := eq_of_isPre hxp
          have hdrop : isPre (httpPre.drop (c :: pre').length)
              (sch ++ (tok ++ suffix)) = true := by
            have hcl : isPre ((c :: pre') ++ httpPre.drop (c :: pre').length)
                ((c :: pre') ++ (sch ++ (tok ++ suffix))) = true := by
              rw [← hpd]; exact hb
            rw [isPre_cancel_left] at hcl
            exact hcl
          obtain ⟨X', hX⟩ : ∃ X', sch ++ (tok ++ suffix) = 'h' :: X' := by
            rcases hsch with rfl | rfl
            · exact ⟨'t' :: 't' :: 'p' :: ':' :: '/' :: '/' :: (tok ++ suffix),
                by simp [httpTok, List.cons_append]⟩
            · exact ⟨'t' :: 't' :: 'p' :: 's' :: ':' :: '/' :: '/' :: (tok ++ suffix),
                by simp [httpsTok, List.cons_append]⟩
          rw [hX] at hdrop
          have hk : (c :: pre').length = 1 ∨ (c :: pre').length = 2 ∨
              (c :: pre').length = 3 := by
            have hk1 : 0 < (c :: pre').length := by simp
            have hk2 : (c :: pre').length < 4 := by simpa [httpPre] using hlen
            omega
          rcases hk with h | h | h <;> rw [h] at hdrop <;>
            simp [httpPre, isPre] at hdrop
    have hs : isPre httpsTok ((c :: pre') ++ (sch ++ (tok ++ suffix))) = false := by
      cases hb : isPre httpsTok ((c :: pre') ++ (sch ++ (tok ++ suffix))) with
      | false => rfl
      | true =>
        have h4 := isPre_of_isPre_append
          (show isPre (httpPre ++ ['s', ':', '/', '/'])
            ((c :: pre') ++ (sch ++ (tok ++ suffix))) = true from hb)
        rw [hp4] at h4
        exact absurd h4 (by simp)
    have ht : isPre httpTok ((c :: pre') ++ (sch ++ (tok ++ suffix))) = false := by
      cases hb : isPre httpTok ((c :: pre') ++ (sch ++ (tok ++ suffix))) with
      | false => rfl
      | true =>
        have h4 := isPre_of_isPre_append
          (show isPre (httpPre ++ [':', '/', '/'])
            ((c :: pre') ++ (sch ++ (tok ++ suffix))) = true from hb)
        rw [hp4] at h4
        exact absurd h4 (by simp)
    have hrec := ih h2
    simp only [List.cons_append] at hs ht ⊢
    simp [firstUrl, hs, ht, hrec]

/-! ### Deduplication and parsing lemmas -/

/-- The deduplication loop only drops elements: its output is a sublist of
its input, so survivors keep the input order. -/
theorem dedupAux_sublist :
    ∀ (arts : List NewsArticle) (seenT seenC : List (List Char)),
      List.Sublist (dedupAux arts seenT seenC) arts := by
  intro arts
  induction arts with
  | nil => intro _ _; simp [dedupAux]
  | cons a rest ih =>
    intro seenT seenC
    by_cases h : normTitle a ∉ seenT ∧ normContent a ∉ seenC
    · simp only [dedupAux, if_pos h]
      exact List.Sublist.cons₂ a (ih _ _)
    · simp only [dedupAux, if_neg h]
      exact List.Sublist.cons a (ih _ _)

/-- The first article always survives deduplication. -/
theorem dedupArticles_cons (a : NewsArticle) (l : List NewsArticle) :
    ∃ t, dedupArticles (a :: l) = a :: t := by
  refine ⟨dedupAux l [normTitle a] [normContent a], ?_⟩
  simp [dedupArticles, dedupAux]

/-- Parsing the token list fails exactly when some token fails. -/
theorem parseAll_eq_none_iff (ts : List (List Char)) :
    parseAll ts = none ↔ ∃ t ∈ ts, parseInt? t = none := by
  induction ts with
  | nil => simp [parseAll]
  | cons t ts ih =>
    cases hpt : parseInt? t with
    | none => simp [parseAll, hpt]
    | some i =>
      cases hr : parseAll ts with
      | none =>
        simp only [parseAll, hpt, hr]
        constructor
        · intro _
          obtain ⟨u, hu, hpu⟩ := ih.mp hr
          exact ⟨u, by simp [hu], hpu⟩
        · intro _; trivial
      | some is =>
        simp only [parseAll, hpt, hr]
        constructor
        · intro hfalse; exact absurd hfalse (by simp)
        · rintro ⟨u, hu, hpu⟩
          rcases List.mem_cons.mp hu with rfl | hu2
          · rw [hpt] at hpu; exact absurd hpu (by simp)
          · have := ih.mpr ⟨u, hu2, hpu⟩
            rw [hr] at this
            exact absurd this (by simp)

/-- Appending after a list whose head differs keeps the lists apart. -/
theorem ne_of_head_append {x y : List Char} (r : List Char) {c d : Char}
    (hx : x.head? = some c) (hy : y.head? = some d) (hcd : c ≠ d) :
    x ++ r ≠ y := by
  intro h
  cases x with
  | nil => simp at hx
  | cons a t =>
    cases y with
    | nil => simp at hy
    | cons b u =>
      simp at hx hy
      have hab : a = b := by
        have := congrArg List.head? h
        simpa using this
      exact hcd (hx ▸ hy ▸ hab)

/-- The two target labels of the conditional router differ. -/
theorem save_ne_gen_str :
    "save_linkedin_post".data ≠ "generate_linkedin_post".data := by decide

/-! ### Claims C3, C4, C9, C10 -/

/-- C3 (counterexample): two records with distinct normalised titles but
identical body prefixes do NOT both survive: the second is dropped because
its normalised content key repeats, refuting "for records with distinct
titles, both survive regardless of body similarity". -/
theorem C3_counterexample :
    normTitle { title := ['a'], content := ['x'] } ≠
        normTitle { title := ['b'], content := ['x'] }
    ∧ dedupArticles [{ title := ['a'], content := ['x'] },
        { title := ['b'], content := ['x'] }]
      = [{ title := ['a'], content := ['x'] }] := by decide

/-- C3 (amended): the deduplicator keeps the first occurrence and preserves
input order (its output is a sublist of its input); a pair with equal
normalised titles keeps only the first record whatever the bodies; a pair
with distinct normalised titles keeps both provided the normalised
200-character body prefixes also differ — if the body prefix repeats, the
second record is dropped even when the titles differ (see the
counterexample). -/
theorem C3_dedup_first_occurrence (a b : NewsArticle) (arts : List NewsArticle) :
    List.Sublist (dedupArticles arts) arts
    ∧ (normTitle a = normTitle b → dedupArticles [a, b] = [a])
    ∧ (normTitle a ≠ normTitle b → normContent a ≠ normContent b →
        dedupArticles [a, b] = [a, b]) := by
  refine ⟨dedupAux_sublist arts [] [], fun ht => ?_, fun ht hc => ?_⟩
  · simp [dedupArticles, dedupAux, ht]
  · simp [dedupArticles, dedupAux, Ne.symm ht, Ne.symm hc]

/-- C3 (witness): the amended statement at concrete records. -/
theorem C3_witness :
    dedupArticles [{ title := ['a'], content := ['x'] },
        { title := ['b'], content := ['y'] }]
      = [{ title := ['a'], content := ['x'] },
        { title := ['b'], content := ['y'] }] :=
  (C3_dedup_first_occurrence { title := ['a'], content := ['x'] }
    { title := ['b'], content := ['y'] } []).2.2 (by decide) (by decide)

/-- C4 (counterexample): on the accept choice the review gate leaves the
stored feedback in place — `quality_evaluation` is not cleared — refuting
"clears any stored feedback before returning". -/
theorem C4_counterexample :
    (get_user_feedback_node
        { linkedin_post := some ['p'], quality_evaluation := some ['o'] }
        [['1']]).map (fun t => (t.needs_rewrite, t.quality_evaluation))
      = some (false, some ['o']) := by decide

/-- C4 (amended): for a state with a non-empty draft, the accept choice
clears the rewrite flag but leaves any stored feedback unchanged; the
revise choice with feedback that is non-empty after stripping stores the
stripped feedback and sets the rewrite flag. -/
theorem C4_review_gate (s : State) (p fb : List Char)
    (hp : s.linkedin_post = some p) (hpne : p ≠ []) :
    (∀ t, get_user_feedback_node s [['1']] = some t →
        t.needs_rewrite = false ∧ t.quality_evaluation = s.quality_evaluation)
    ∧ (pyStrip fb ≠ [] → ∀ t, get_user_feedback_node s [['2'], fb] = some t →
        t.needs_rewrite = true ∧ t.quality_evaluation = some (pyStrip fb)) := by
  have e1 : pyStrip ['1'] = ['1'] := by decide
  have e2 : pyStrip ['2'] = ['2'] := by decide
  constructor
  · intro t ht
    simp only [get_user_feedback_node, hp] at ht
    rw [if_neg hpne] at ht
    simp only [reviewLoop, e1, if_pos rfl] at ht
    injection ht with ht'
    subst ht'
    exact ⟨rfl, rfl⟩
  · intro hfb t ht
    simp only [get_user_feedback_node, hp] at ht
    rw [if_neg hpne] at ht
    simp only [reviewLoop, e2, if_true] at ht
    rw [if_pos hfb] at ht
    injection ht with ht'
    subst ht'
    exact ⟨rfl, rfl⟩

/-- C4 (witness): the amended statement at a concrete state: accept keeps
the stored feedback and clears the flag; revise stores stripped feedback
and sets the flag. -/
theorem C4_witness :
    (∀ t, get_user_feedback_node
        { linkedin_post := some ['p'], quality_evaluation := some ['o'] } [['1']] = some t →
        t.needs_rewrite = false ∧ t.quality_evaluation = some ['o'])
    ∧ (∀ t, get_user_feedback_node
        { linkedin_post := some ['p'], quality_evaluation := some ['o'] }
        [['2'], [' ', 'f', 'b', ' ']] = some t →
        t.needs_rewrite = true ∧ t.quality_evaluation = some ['f', 'b']) := by
  have h := C4_review_gate
    { linkedin_post := some ['p'], quality_evaluation := some ['o'] }
    ['p'] [' ', 'f', 'b', ' '] rfl (by decide)
  exact ⟨h.1, by simpa using h.2 (by decide)⟩

/-- C9: the deduplication pass always keeps the first record, so on any
non-empty article list its output is non-empty and the "No unique articles
available to choose from" branch of the ranking node is unreachable. -/
theorem C9_first_survives (a : NewsArticle) (l : List NewsArticle) (s : State)
    (resp : List Char) (hn : s.news_articles = some (a :: l)) (herr : s.error = none) :
    (∃ t, dedupArticles (a :: l) = a :: t)
    ∧ dedupArticles (a :: l) ≠ []
    ∧ (choose_relevant_article_node s resp).error ≠ some noUniqueMsg := by
  obtain ⟨t, ht⟩ := dedupArticles_cons a l
  refine ⟨⟨t, ht⟩, by simp [ht], ?_⟩
  cases hpar : parseAll (splitComma resp) with
  | none =>
    simp [choose_relevant_article_node, hn, ht, hpar]
    intro h
    exact ne_of_head_append resp (show parseErrMsgPre.head? = some 'E' from rfl)
      (show noUniqueMsg.head? = some 'N' from rfl) (by decide) h
  | some idxs =>
    by_cases hv : validIdx idxs (t.length + 1) = []
    · simp [choose_relevant_article_node, hn, ht, hpar, hv]
      intro h
      exact (show noValidMsg ≠ noUniqueMsg by decide) h
    · simp [choose_relevant_article_node, hn, ht, hpar, hv, herr]

/-- C9 (witness): the unreachable-branch statement at a concrete state. -/
theorem C9_witness :
    (choose_relevant_article_node { news_articles := some [artW '0'] } ['z']).error
      ≠ some noUniqueMsg :=
  (C9_first_survives (artW '0') [] { news_articles := some [artW '0'] } ['z']
    rfl rfl).2.2

/-- C10: the multi-pick ranker does not deduplicate parsed indices: on the
response `1,1,1` over a two-article candidate list the selected-articles
sequence holds the second article three times. -/
theorem C10_indices_not_deduplicated :
    (choose_relevant_article_node { news_articles := some [artW '0', artW '1'] }
        ['1', ',', '1', ',', '1']).selected_articles
      = some [artW '1', artW '1', artW '1']
    ∧ artW '0' ≠ artW '1' := by decide

/-! ### Claims C2 and C7 -/

/-- C2: for every candidate list and every response parsing as a
comma-separated integer list, the multi-pick ranker keeps only indices in
`[0, count)` (membership conjunct), truncates to five entries (length
conjunct), preserves the returned order without re-sorting (the kept
indices are a sublist of the parsed ones), and selects exactly the
articles at the surviving indices; on response `2,0,7,1` over a five-item
candidate list it selects items 2, 0, 1 in that order. -/
theorem C2_multi_pick_ranker (s : State) (arts : List NewsArticle) (resp : List Char)
    (idxs : List Int)
    (hn : s.news_articles = some arts) (hne : arts ≠ [])
    (hp : parseAll (splitComma resp) = some idxs)
    (hv : validIdx idxs (dedupArticles arts).length ≠ []) :
    (choose_relevant_article_node s resp).selected_articles =
      some ((validIdx idxs (dedupArticles arts).length).map
        fun i => (dedupArticles arts).getD i.toNat defaultArticle)
    ∧ List.Sublist (validIdx idxs (dedupArticles arts).length) idxs
    ∧ (validIdx idxs (dedupArticles arts).length).length ≤ 5
    ∧ (∀ i ∈ validIdx idxs (dedupArticles arts).length,
        0 ≤ i ∧ i < ((dedupArticles arts).length : Int))
    ∧ (choose_relevant_article_node
        { news_articles := some [artW '0', artW '1', artW '2', artW '3', artW '4'] }
        ['2', ',', '0', ',', '7', ',', '1']).selected_articles
      = some [artW '2', artW '0', artW '1'] := by
  obtain ⟨a, l, rfl⟩ : ∃ a l, arts = a :: l := by
    cases arts with
    | nil => exact absurd rfl hne
    | cons a l => exact ⟨a, l, rfl⟩
  obtain ⟨t, ht⟩ := dedupArticles_cons a l
  have hv2 : validIdx idxs (t.length + 1) ≠ [] := by
    rw [ht] at hv
    simpa using hv
  refine ⟨?_, ?_, ?_, ?_, by decide⟩
  · simp [choose_relevant_article_node, hn, ht, hp, hv2]
  · simp only [validIdx]
    exact (List.take_sublist _ _).trans (List.filter_sublist _)
  · simp only [validIdx]
    rw [List.length_take]
    exact min_le_left _ _
  · intro i hi
    simp only [validIdx] at hi
    have hi2 := List.mem_of_mem_take hi
    have hq := (List.mem_filter.mp hi2).2
    simpa using hq

/-- C2 (witness): the concrete five-candidate instance. -/
theorem C2_witness :
    (choose_relevant_article_node
        { news_articles := some [artW '0', artW '1', artW '2', artW '3', artW '4'] }
        ['2', ',', '0', ',', '7', ',', '1']).selected_articles
      = some [artW '2', artW '0', artW '1'] :=
  (C2_multi_pick_ranker
    { news_articles := some [artW '0', artW '1', artW '2', artW '3', artW '4'] }
    [artW '0', artW '1', artW '2', artW '3', artW '4']
    ['2', ',', '0', ',', '7', ',', '1'] [2, 0, 7, 1]
    rfl (by decide) (by decide) (by decide)).2.2.2.2

/-- C7 (counterexample): on response `1,abc` the node takes the
parse-error branch although the response contains the parseable integer
`1`, refuting "fails with SelectionParseError exactly when the model
response contains no parseable integer(s)". -/
theorem C7_counterexample :
    (choose_relevant_article_node { news_articles := some [artW '0', artW '1'] }
        ['1', ',', 'a', 'b', 'c']).error
      = some (parseErrMsgPre ++ ['1', ',', 'a', 'b', 'c'])
    ∧ ['1'] ∈ splitComma ['1', ',', 'a', 'b', 'c']
    ∧ parseInt? ['1'] = some 1 := by decide

/-- C7 (amended): on a non-empty candidate list with no prior error, the
node reports the parse error exactly when parsing the comma-split response
fails, which happens exactly when SOME token is not parseable as an
integer (not only when none is); it reports the no-valid-indices error
exactly when zero valid indices survive filtering; and on an absent or
empty article list it reports the empty-input error. -/
theorem C7_error_conditions (s : State) (arts : List NewsArticle) (resp : List Char)
    (hn : s.news_articles = some arts) (hne : arts ≠ []) (herr : s.error = none) :
    ((choose_relevant_article_node s resp).error = some (parseErrMsgPre ++ resp)
        ↔ parseAll (splitComma resp) = none)
    ∧ (parseAll (splitComma resp) = none ↔ ∃ tk ∈ splitComma resp, parseInt? tk = none)
    ∧ (∀ idxs, parseAll (splitComma resp) = some idxs →
        ((choose_relevant_article_node s resp).error = some noValidMsg
          ↔ validIdx idxs (dedupArticles arts).length = []))
    ∧ (∀ u : State, u.news_articles = none ∨ u.news_articles = some [] →
        (choose_relevant_article_node u resp).error = some noArticlesMsg) := by
  obtain ⟨a, l, rfl⟩ : ∃ a l, arts = a :: l := by
    cases arts with
    | nil => exact absurd rfl hne
    | cons a l => exact ⟨a, l, rfl⟩
  obtain ⟨t, ht⟩ := dedupArticles_cons a l
  have herr_parse : parseAll (splitComma resp) = none →
      (choose_relevant_article_node s resp).error = some (parseErrMsgPre ++ resp) :=
    fun hp => by simp [choose_relevant_article_node, hn, ht, hp]
  have herr_noval : ∀ idxs, parseAll (splitComma resp) = some idxs →
      validIdx idxs (t.length + 1) = [] →
      (choose_relevant_article_node s resp).error = some noValidMsg :=
    fun idxs hp hv => by simp [choose_relevant_article_node, hn, ht, hp, hv]
  have herr_ok : ∀ idxs, parseAll (splitComma resp) = some idxs →
      validIdx idxs (t.length + 1) ≠ [] →
      (choose_relevant_article_node s resp).error = none :=
    fun idxs hp hv => by simp [choose_relevant_article_node, hn, ht, hp, hv, herr]
  refine ⟨⟨?_, herr_parse⟩, parseAll_eq_none_iff _, ?_, ?_⟩
  · intro h
    cases hpar : parseAll (splitComma resp) with
    | none => rfl
    | some idxs =>
      exfalso
      by_cases hv : validIdx idxs (t.length + 1) = []
      · rw [herr_noval idxs hpar hv] at h
        injection h with h'
        exact ne_of_head_append resp (show parseErrMsgPre.head? = some 'E' from rfl)
          (show noValidMsg.head? = some 'N' from rfl) (by decide) h'.symm
      · rw [herr_ok idxs hpar hv] at h
        exact Option.noConfusion h
  · intro idxs hp
    constructor
    · intro h
      by_contra hv0
      have hv : validIdx idxs (t.length + 1) ≠ [] := by
        rw [ht] at hv0
        simpa using hv0
      rw [herr_ok idxs hp hv] at h
      exact Option.noConfusion h
    · intro hv0
      have hv : validIdx idxs (t.length + 1) = [] := by
        rw [ht] at hv0
        simpa using hv0
      exact herr_noval idxs hp hv
  · intro u hu
    rcases hu with hu | hu <;> simp [choose_relevant_article_node, hu]

/-- C7 (witness): the amended statement applied concretely: the
empty-input error on an absent article list. -/
theorem C7_witness :
    (choose_relevant_article_node { news_articles := none } ['x']).error
      = some noArticlesMsg :=
  (C7_error_conditions { news_articles := some [artW '0'] } [artW '0'] ['x']
    rfl (by decide) rfl).2.2.2 { news_articles := none } (Or.inl rfl)

/-! ### Claims C1 and C8 -/

/-- C1 (counterexample): a concrete run refuting the halt-on-error claim.
In a revise cycle the second draft generation fails and records an error,
yet the controller still routes to the review gate; after the operator
accepts, the router sends the run to the persistence step with the error
still set — further steps execute and persistence is attempted. -/
theorem C1_counterexample :
    (let s1 := choose_relevant_article_node { news_articles := some [artW '1'] } ['0']
     let s2 := (select_article_node s1 [['1']]).getD {}
     let s3 := generate_linkedin_post_node s2 (.ok ['d', '1'])
     let s4 := (get_user_feedback_node s3 [['2'], ['f', 'b']]).getD {}
     let s5 := generate_linkedin_post_node s4 (.error ['b', 'm'])
     let s6 := (get_user_feedback_node s5 [['1']]).getD {}
     s5.error = some (genErrPre ++ ['b', 'm'])
       ∧ route .generate_linkedin_post s5 = some .get_user_feedback
       ∧ s6.error = some (genErrPre ++ ['b', 'm'])
       ∧ s6.needs_rewrite = false
       ∧ route .get_user_feedback s6 = some .save_linkedin_post
       ∧ (save_linkedin_post_node s6 (.ok ())).linkedin_post = some ['d', '1']) := by
  decide

/-- C1 (amended): the controller's routing never consults the error slot:
after a step records an error the successor in graph order is scheduled
unchanged, and with the rewrite flag false the router still sends the run
through the persistence step to the end of the graph. -/
theorem C1_routing_ignores_error (n : Node) (s : State) (msg : List Char) :
    route n { s with error := some msg } = route n s
    ∧ (s.needs_rewrite = false → route .get_user_feedback s = some .save_linkedin_post)
    ∧ route .save_linkedin_post s = some .finish := by
  refine ⟨?_, ?_, rfl⟩
  · cases n <;> rfl
  · intro h
    simp [route, determine_next_step, h, save_ne_gen_str]

/-- C1 (witness): the amended statement at a concrete state. -/
theorem C1_witness :
    route .get_user_feedback ({ needs_rewrite := false } : State)
      = some .save_linkedin_post :=
  (C1_routing_ignores_error .get_user_feedback { needs_rewrite := false } ['e']).2.1 rfl

/-- C8: from the review gate the router picks the drafting step exactly on
a true rewrite flag and the persistence step on a false one; every edge of
the graph increases the topological rank except the single review-to-draft
back edge, so that loop is the only cycle; and in the rewrite case the
prompt sent to the model contains the previous draft and the stored
feedback text verbatim as contiguous substrings. -/
theorem C8_review_routing (s : State) (fb p article : List Char)
    (h1 : s.needs_rewrite = true) (h2 : s.quality_evaluation = some fb)
    (h3 : s.linkedin_post = some p) :
    route .get_user_feedback s = some .generate_linkedin_post
    ∧ (∀ u : State, u.needs_rewrite = false →
        route .get_user_feedback u = some .save_linkedin_post)
    ∧ (∀ (x : Node) (u : State) (y : Node), route x u = some y → y ∈ successors x)
    ∧ (∀ x y : Node, y ∈ successors x →
        rank x < rank y ∨ (x = .get_user_feedback ∧ y = .generate_linkedin_post))
    ∧ ∃ u v w, generatePrompt s article = u ++ (p ++ (v ++ (fb ++ w))) := by
  refine ⟨?_, ?_, ?_, by decide, ?_⟩
  · simp [route, determine_next_step, h1]
  · intro u hu
    simp [route, determine_next_step, hu, save_ne_gen_str]
  · intro x u y h
    cases x <;> by_cases hu : u.needs_rewrite <;>
      simp [route, determine_next_step, hu, save_ne_gen_str, successors] at h ⊢ <;>
      simp [h]
  · exact ⟨basePrompt ++ rewriteCtxPre, userFeedbackHdr,
      articleHdr ++ article ++ rewriteTail,
      by simp [generatePrompt, h1, h2, h3, List.append_assoc]⟩

/-- C8 (witness): the rewrite routing at a concrete state. -/
theorem C8_witness :
    route .get_user_feedback
      ({ needs_rewrite := true, quality_evaluation := some ['f'],
         linkedin_post := some ['p'] } : State) = some .generate_linkedin_post :=
  (C8_review_routing
    { needs_rewrite := true, quality_evaluation := some ['f'], linkedin_post := some ['p'] }
    ['f'] ['p'] ['a'] rfl rfl rfl).1

/-! ### Claims C5 and C6 -/

/-- C5: a feed-entry body made of N well-formed heading/divider segments
(each with non-interfering pieces) interleaved with malformed text and
followed by a matchless tail yields exactly N article records — one per
segment, each with the markup-stripped, trimmed headline and content — and
a body with no heading or no divider marker at all yields zero records
with no error recorded. -/
theorem C5_feed_extractor (gs : List Seg) (tail body : List Char)
    (hseg : ∀ g ∈ gs, segOk g) (htail : findHeadlines tail = []) :
    extractArticles (renderBody gs tail) = gs.map segArticle
    ∧ (extractArticles (renderBody gs tail)).length = gs.length
    ∧ (splitFirst h3open body = none ∨ splitFirst hrTok body = none →
        extractArticles body = []
        ∧ (fetch_ai_news_rss_node [body]).news_articles = some []
        ∧ (fetch_ai_news_rss_node [body]).error = none) := by
  have hmain := extractArticles_renderBody gs tail hseg htail
  refine ⟨hmain, by rw [hmain]; simp, ?_⟩
  intro hb
  have hnil : findHeadlines body = [] := by
    rcases hb with hb | hb
    · exact findHeadlines_nil_of_h3_none hb
    · exact findHeadlines_nil_of_hr_none hb
  have hext : extractArticles body = [] := by simp [extractArticles, hnil]
  exact ⟨hext, by simp [fetch_ai_news_rss_node, hext], by simp [fetch_ai_news_rss_node]⟩

/-- C5 (witness): a concrete body with two well-formed segments, stray
markup between and after them, and an embedded link; the records carry the
stripped trimmed title and content and the first link. -/
theorem C5_witness :
    extractArticles (renderBody
        [⟨"intro ".data, " id=1".data, "Title <b>One</b>".data,
          "Body <i>1</i> see https://a.b/x now".data⟩,
         ⟨"<hr />stray".data, [], "Two".data, "B2".data⟩]
        "<h3>broken".data)
      = [segArticle ⟨"intro ".data, " id=1".data, "Title <b>One</b>".data,
          "Body <i>1</i> see https://a.b/x now".data⟩,
         segArticle ⟨"<hr />stray".data, [], "Two".data, "B2".data⟩]
    ∧ segArticle ⟨"intro ".data, " id=1".data, "Title <b>One</b>".data,
          "Body <i>1</i> see https://a.b/x now".data⟩
      = { title := "Title One".data,
          content := "Body 1 see https://a.b/x now".data,
          url := "https://a.b/x".data } := by
  refine ⟨(C5_feed_extractor
    [⟨"intro ".data, " id=1".data, "Title <b>One</b>".data,
      "Body <i>1</i> see https://a.b/x now".data⟩,
     ⟨"<hr />stray".data, [], "Two".data, "B2".data⟩]
    "<h3>broken".data [] (by decide) (by decide)).1, by decide⟩

/-- C6: the record's source URL is the first `http(s)://` token of the
unstripped segment content: on content holding a first link (scheme plus a
non-empty non-whitespace token, preceded by `http`-free text and followed
by whitespace or the end) the extracted URL is exactly that link, whatever
follows — in particular a second link; content with no `http` at all gives
the empty string; and every extracted article's `url` field is the URL
extracted from its segment's raw content. -/
theorem C6_source_url (pre sch tok suffix content body : List Char)
    (hsch : sch = httpTok ∨ sch = httpsTok)
    (hpre : splitFirst httpPre pre = none)
    (htne : tok ≠ []) (htok : ∀ ch ∈ tok, isPySpace ch = false)
    (hsuf : suffix = [] ∨ ∃ d r, suffix = d :: r ∧ isPySpace d = true) :
    extractUrl (pre ++ (sch ++ (tok ++ suffix))) = sch ++ tok
    ∧ (splitFirst httpPre content = none → extractUrl content = [])
    ∧ (∀ a ∈ extractArticles body, ∃ hc ∈ findHeadlines body, a.url = extractUrl hc.2) := by
  refine ⟨?_, fun hc => by simp [extractUrl, firstUrl_none_of_no_http hc], ?_⟩
  · show (firstUrl (pre ++ (sch ++ (tok ++ suffix)))).getD [] = sch ++ tok
    rw [firstUrl_append_token hsch htne htok hsuf pre hpre]
    rfl
  · intro a ha
    simp only [extractArticles, List.mem_map] at ha
    obtain ⟨hc, hhc, rfl⟩ := ha
    exact ⟨hc, hhc, rfl⟩

/-- C6 (witness): content with two embedded links yields exactly the first
one; content with no link yields the empty string. -/
theorem C6_witness :
    extractUrl ("Read: ".data ++ (httpsTok ++ ("a.b/x".data ++ " and https://c.d".data)))
      = httpsTok ++ "a.b/x".data
    ∧ extractUrl "no links here".data = [] := by
  have h := C6_source_url "Read: ".data httpsTok "a.b/x".data " and https://c.d".data
    "no links here".data []
    (Or.inr rfl) (by decide) (by decide) (by decide)
    (Or.inr ⟨' ', "and https://c.d".data, rfl, by decide⟩)
  exact ⟨h.1, h.2.1 (by decide)⟩
